import Mathlib

/-!
# ingress-istio-controller: the queue/worker harness of `pkg/controller/controller.go`

A shallow embedding of `NewController`, `Run`, `runWorker`, `processNextWorkItem`,
`syncHandler` and `enqueueIngress`.

Every call the Go code makes on a collaborator (work queue, lister, logger,
`handleVirtualService`) is recorded, in program order, as an `Event` of a `Trace`;
the functions return their trace together with their Go result.  What a collaborator
answers (the pair returned by `workqueue.Get`, the lister's answer, the result of
`handleVirtualService`, the result of `cache.WaitForCacheSync`) is an input.

Go strings are modelled by `String`; `'/'` is a single byte that never occurs inside
a multi-byte UTF-8 sequence, so splitting on the character and on the byte agree.
-/

namespace IngressIstio

/-! ## Data model -/

/-- The part of `metav1.ObjectMeta` the controller reads. -/
structure ObjectMeta where
  Namespace : String
  Name : String
  deriving DecidableEq, Repr

/-- A `*networking.Ingress` as far as this file looks at it: its identity. -/
structure Ingress where
  meta : ObjectMeta
  deriving DecidableEq, Repr

/-- A Go `interface{}` value as the work queue and the informer handlers receive it. -/
inductive Value
  /-- the nil interface (what `Get` returns together with `shutdown = true`) -/
  | nil
  /-- a Go `string` -/
  | str (s : String)
  /-- a `cache.ExplicitKey` -/
  | explicitKey (k : String)
  /-- an object with an `ObjectMeta` accessor, here an Ingress -/
  | ingress (ing : Ingress)
  /-- any other value: no string, no key, no metadata (an `int`, a tombstone, ...) -/
  | other (tag : Nat)
  deriving DecidableEq, Repr

/-- The `metav1.StatusReason` of an API status error. -/
inductive StatusReason
  | NotFound
  | Conflict
  | Timeout
  | Unknown
  deriving DecidableEq, Repr

/-- Go `error` values.  The constructors are the errors this file builds with
`fmt.Errorf`, the two errors of the `cache` key helpers, API status errors, and
any other error a collaborator may hand back. -/
inductive GoError
  /-- an `*errors.StatusError` of the API machinery -/
  | status (reason : StatusReason) (msg : String)
  /-- any other error value of a collaborator, by its message -/
  | msg (text : String)
  /-- `fmt.Errorf("expected string in workqueue but got %#v", obj)` -/
  | expectedString (obj : Value)
  /-- `fmt.Errorf("error synching %q: %v, requeing", key, err)` -/
  | errorSynching (key : String) (cause : GoError)
  /-- `fmt.Errorf("invalid resource key: %s", key)` -/
  | invalidResourceKey (key : String)
  /-- `fmt.Errorf("ingress %q in work queue no longer exists", key)` -/
  | noLongerExists (key : String)
  /-- `fmt.Errorf("unexpected key format: %q", key)` of `cache.SplitMetaNamespaceKey` -/
  | unexpectedKeyFormat (key : String)
  /-- `fmt.Errorf("object has no meta: %v", err)` of `cache.MetaNamespaceKeyFunc` -/
  | objectHasNoMeta
  deriving DecidableEq, Repr

/-- Modelled from the spec: `errors.IsNotFound` of the API machinery (called at
line 174, defined outside `controller.go`), the test for the spec's `NotFoundError`
(section 7): the reason of a status error is `NotFound`; an error without a status
is not a not-found error. -/
def IsNotFound : GoError → Bool
  | .status .NotFound _ => true
  | _ => false

/-- The three `cache.InformerSynced` functions the controller keeps, named by the
informer whose `HasSynced` they are. -/
inductive InformerSynced
  | ingresses
  | services
  | virtualServices
  deriving DecidableEq, Repr

/-- Calls on the cluster that `handleVirtualService` may issue through the Istio
client set and the event recorder. -/
inductive ClientCall
  | getVirtualService (ns name : String)
  | createVirtualService (ns name : String)
  | updateVirtualService (ns name : String)
  | deleteVirtualService (ns name : String)
  | recordEvent (reason : String)
  deriving DecidableEq, Repr

/-- One observable call of the controller code, in the order the code makes them. -/
inductive Event
  /-- `c.workqueue.Get()` -/
  | queueGet
  /-- `c.workqueue.Add(item)` -/
  | queueAdd (item : Value)
  /-- `c.workqueue.AddRateLimited(item)` -/
  | queueAddRateLimited (item : Value)
  /-- `c.workqueue.Forget(item)` -/
  | queueForget (item : Value)
  /-- `c.workqueue.Done(item)` -/
  | queueDone (item : Value)
  /-- `c.workqueue.ShutDown()` -/
  | queueShutDown
  /-- `c.ingressesLister.Ingresses(namespace).Get(name)` -/
  | listerGet (ns name : String)
  /-- `c.handleVirtualService(ingress)` is entered -/
  | handleVirtualService (ing : Ingress)
  /-- a call made inside `handleVirtualService` -/
  | client (call : ClientCall)
  /-- `utilruntime.HandleError(err)` -/
  | handleError (err : GoError)
  /-- `klog.Info` / `klog.Infof` with the format string and its key argument -/
  | klogInfo (text : String) (arg : Option String)
  /-- `klog.Errorf("failed to handle virtual service: %v", err)` -/
  | klogError (text : String) (err : GoError)
  /-- `cache.WaitForCacheSync(stopCh, syncs...)` -/
  | waitForCacheSync (syncs : List InformerSynced)
  /-- `go wait.Until(c.runWorker, time.Second, stopCh)` in loop iteration `i` -/
  | startWorker (i : Int)
  /-- the receive `<-stopCh` returns -/
  | recvStop
  deriving DecidableEq, Repr

/-- The calls of a run, oldest first. -/
abbrev Trace := List Event

/-! ## The `cache` key helpers of client-go

`MetaNamespaceKeyFunc` and `SplitMetaNamespaceKey` live in
`k8s.io/client-go/tools/cache`; the controller calls them at lines 195 and 165. -/

/-- Modelled from the spec: the split of a key at its separators ("Split key into
namespace/name", section 4.4), which `cache.SplitMetaNamespaceKey` does with
`strings.Split(key, "/")`: the pieces of `s` between the occurrences of the
separator; a string without separator is one piece. -/
def stringsSplit (s : String) (sep : Char) : List String :=
  (s.data.splitOn sep).map String.mk

/-- Modelled from the spec: `cache.MetaNamespaceKeyFunc` (called at line 195,
defined in client-go, not in `controller.go`), the spec's canonical key
`"namespace/name"` (section 4.1): an `ExplicitKey` is its own key; an object with
metadata has key `namespace/name`, or `name` alone when the namespace is empty; any
other object is an error. -/
def MetaNamespaceKeyFunc : Value → Except GoError String
  | .explicitKey k => .ok k
  | .ingress ing =>
    if ing.meta.Namespace.length > 0 then
      .ok (ing.meta.Namespace ++ "/" ++ ing.meta.Name)
    else
      .ok ing.meta.Name
  | _ => .error .objectHasNoMeta

/-- Modelled from the spec: `cache.SplitMetaNamespaceKey` (called at line 165,
defined in client-go, not in `controller.go`), the spec's "Split key into
namespace/name" (section 4.4): one part is a name without namespace, two parts are
namespace and name, anything else is an error. -/
def SplitMetaNamespaceKey (key : String) : Except GoError (String × String) :=
  match stringsSplit key '/' with
  | [name] => .ok ("", name)
  | [ns, name] => .ok (ns, name)
  | _ => .error (.unexpectedKeyFormat key)

/-! ## The controller -/

/-- What the code of this file reads of the world while it handles one key: the
Ingress cache behind `c.ingressesLister`, and the method `handleVirtualService`,
which is defined outside `controller.go` and is taken as a parameter: the client
calls it issues and the error it returns. -/
structure Env where
  ingressesLister : String → String → Except GoError Ingress
  handleVirtualService : Ingress → List ClientCall × Option GoError

/-- The method `Controller.syncHandler` (lines 164-190). -/
def syncHandler (c : Env) (key : String) : Trace × Option GoError :=
  match SplitMetaNamespaceKey key with
  | .error _ =>
    ([.handleError (.invalidResourceKey key)], none)
  | .ok (ns, name) =>
    match c.ingressesLister ns name with
    | .error err =>
      if IsNotFound err then
        ([.listerGet ns name, .handleError (.noLongerExists key)], none)
      else
        ([.listerGet ns name], some err)
    | .ok ingress =>
      match c.handleVirtualService ingress with
      | (calls, some err) =>
        ([.listerGet ns name, .handleVirtualService ingress] ++ calls.map .client
          ++ [.klogError "failed to handle virtual service: %v" err], some err)
      | (calls, none) =>
        ([.listerGet ns name, .handleVirtualService ingress] ++ calls.map .client, none)

/-- The closure of `processNextWorkItem` (lines 135-154), with its deferred
`c.workqueue.Done(obj)` placed where the closure returns. -/
def processItem (c : Env) (obj : Value) : Trace × Option GoError :=
  match obj with
  | .str key =>
    match syncHandler c key with
    | (t, some err) =>
      (t ++ [.queueAddRateLimited (.str key), .queueDone obj],
        some (.errorSynching key err))
    | (t, none) =>
      (t ++ [.queueForget obj, .klogInfo "successfully synched %q" (some key),
        .queueDone obj], none)
  | _ =>
    ([.queueForget obj, .handleError (.expectedString obj), .queueDone obj], none)

/-- The method `Controller.processNextWorkItem` (lines 128-162); `obj` and
`shutdown` are what `c.workqueue.Get()` returned. -/
def processNextWorkItem (c : Env) (obj : Value) (shutdown : Bool) : Trace × Bool :=
  if shutdown then
    ([.queueGet], false)
  else
    match processItem c obj with
    | (t, some err) => (.queueGet :: t ++ [.handleError err], true)
    | (t, none) => (.queueGet :: t, true)

/-- One answer of `c.workqueue.Get()` together with the world at that moment. -/
structure Dequeue where
  env : Env
  obj : Value
  shutdown : Bool

/-- The method `Controller.runWorker` (lines 123-126) against a script of the
answers `Get` gives; when the script is used up, `Get` blocks. -/
def runWorker : List Dequeue → Trace
  | [] => []
  | d :: rest =>
    match processNextWorkItem d.env d.obj d.shutdown with
    | (t, true) => t ++ runWorker rest
    | (t, false) => t

/-- The method `Controller.enqueueIngress` (lines 192-201). -/
def enqueueIngress (obj : Value) : Trace :=
  match MetaNamespaceKeyFunc obj with
  | .error err => [.handleError err]
  | .ok key => [.queueAdd (.str key)]

/-! ## Construction and start-up -/

/-- Modelled from the spec: `cache.ResourceEventHandlerFuncs` (the handler set of
line 89, defined in client-go), the subscription of section 6: one optional
callback per kind of notification. -/
structure ResourceEventHandlerFuncs where
  AddFunc : Option (Value → Trace)
  UpdateFunc : Option (Value → Value → Trace)
  DeleteFunc : Option (Value → Trace)

/-- A change notification of the Ingress informer. -/
inductive Notification
  | added (obj : Value)
  | updated (old new : Value)
  | deleted (obj : Value)
  deriving DecidableEq, Repr

/-- Modelled from the spec: the informer's dispatch `OnAdd` / `OnUpdate` /
`OnDelete` of `cache.ResourceEventHandlerFuncs` (client-go): a notification runs
the callback registered for its kind, and does nothing when that callback is nil. -/
def ResourceEventHandlerFuncs.notify (h : ResourceEventHandlerFuncs) :
    Notification → Trace
  | .added obj =>
    match h.AddFunc with
    | some f => f obj
    | none => []
  | .updated old new =>
    match h.UpdateFunc with
    | some f => f old new
    | none => []
  | .deleted obj =>
    match h.DeleteFunc with
    | some f => f obj
    | none => []

/-- The fields of `Controller` (lines 30-50) that the code of this file reads as
data.  The client sets, the listers, the recorder and the work queue are
collaborators: they appear as `Env` and as events. -/
structure Controller where
  clusterDomain : String
  defaultGateway : String
  ingressClass : String
  defaultWeight : Int
  ingressesSynched : InformerSynced
  servicesSynched : InformerSynced
  virtualServicesSynched : InformerSynced
  deriving DecidableEq, Repr

/-- The function `NewController` (lines 53-97): the controller it builds, the event
handlers it registers on the Ingress informer (lines 89-94), and its unconditional
log line (the verbosity-4 line and the set-up of the event broadcaster touch neither
the queue nor the handlers and are left out). -/
def NewController (clusterDomain defaultGateway ingressClass : String)
    (defaultWeight : Int) : Controller × List ResourceEventHandlerFuncs × Trace :=
  (⟨clusterDomain, defaultGateway, ingressClass, defaultWeight,
      .ingresses, .services, .virtualServices⟩,
    [⟨some enqueueIngress, some (fun _ new => enqueueIngress new), none⟩],
    [.klogInfo "setting up event handlers" none])

/-- What the Ingress informer does with a notification: it hands it to every
registered handler, in registration order. -/
def dispatch (handlers : List ResourceEventHandlerFuncs) (n : Notification) : Trace :=
  handlers.flatMap (fun h => h.notify n)

/-- The loop of lines 112-114: `for i := 0; i < threadiness; i++`, entered with the
current value of `i`. -/
def startWorkers (threadiness : Int) (i : Int) : Trace :=
  if i < threadiness then
    .startWorker i :: startWorkers threadiness (i + 1)
  else
    []
termination_by (threadiness - i).toNat
decreasing_by omega

/-- The method `Controller.Run` (lines 100-121).  `WaitForCacheSync` is the client-go
function, given by the answer it returns for a list of sync functions; the deferred
`c.workqueue.ShutDown()` runs when `Run` returns; `<-stopCh` is passed when the stop
signal arrives. -/
def Run (c : Controller) (WaitForCacheSync : List InformerSynced → Bool)
    (threadiness : Int) : Trace × Option GoError :=
  let syncs := [c.ingressesSynched, c.servicesSynched, c.virtualServicesSynched]
  let start : Trace :=
    [.klogInfo "starting controller" none,
      .klogInfo "waiting for informer caches to sync" none,
      .waitForCacheSync syncs]
  if WaitForCacheSync syncs then
    (start ++ [.klogInfo "starting workers" none] ++ startWorkers threadiness 0
      ++ [.klogInfo "started workers" none, .recvStop,
          .klogInfo "shutting down workers" none, .queueShutDown], none)
  else
    (start ++ [.queueShutDown], some (.msg "failed to wait for caches to sync"))

/-! ## Predicates on traces -/

/-- The calls on the work queue. -/
def Event.isQueueCall : Event → Bool
  | .queueGet => true
  | .queueAdd _ => true
  | .queueAddRateLimited _ => true
  | .queueForget _ => true
  | .queueDone _ => true
  | .queueShutDown => true
  | _ => false

/-- The calls that put a key (back) into the queue: `Add` and `AddRateLimited`. -/
def Event.isRequeue : Event → Bool
  | .queueAdd _ => true
  | .queueAddRateLimited _ => true
  | _ => false

/-- The calls that reach the cluster or `handleVirtualService`. -/
def Event.isClusterCall : Event → Bool
  | .handleVirtualService _ => true
  | .client _ => true
  | _ => false

/-- The starts of a worker. -/
def Event.isStartWorker : Event → Bool
  | .startWorker _ => true
  | _ => false

/-! ## The event queue and the worker pool

The work queue is the client-go rate-limiting queue built at line 84; its code is
not part of `controller.go`.  It is modelled from section 4.2 of the spec, with the
three collections that contract needs: the pending keys in dispatch order, the keys
that need processing, and the keys in flight.  Each operation is atomic (the queue
serialises its callers), so a run of the pool is an interleaving of operations. -/

/-- Modelled from the spec: the state of the Event Queue (section 4.2; the client-go
work queue of line 84, not in `controller.go`).  `queue` holds the pending keys in
dispatch order, `dirty` the keys that need processing (pending, or re-added while in
flight), `processing` the keys in flight, `waiting` the keys whose backoff delay is
running, `backoff` one entry per failure not yet forgotten. -/
structure Queue where
  queue : List Value
  dirty : List Value
  processing : List Value
  waiting : List Value
  backoff : List Value
  shuttingDown : Bool
  deriving DecidableEq, Repr

/-- Modelled from the spec: the empty queue `NewNamedRateLimitingQueue` returns
(line 84). -/
def Queue.empty : Queue := ⟨[], [], [], [], [], false⟩

/-- Modelled from the spec: `Add(key)` (section 4.2): rejected after shutdown,
"idempotent if key already pending/in-flight"; a key added while in flight is
recorded as dirty, "absorbed and re-dispatched only after `Done`". -/
def Queue.Add (q : Queue) (item : Value) : Queue :=
  if q.shuttingDown then q
  else if item ∈ q.dirty then q
  else if item ∈ q.processing then
    ⟨q.queue, item :: q.dirty, q.processing, q.waiting, q.backoff, q.shuttingDown⟩
  else
    ⟨q.queue ++ [item], item :: q.dirty, q.processing, q.waiting, q.backoff,
      q.shuttingDown⟩

/-- Modelled from the spec: `Get()` (section 4.2): the first pending key, which
becomes in flight and stops being dirty; the shutdown signal when the queue is
empty and shut down; `none` when the caller blocks. -/
def Queue.Get (q : Queue) : Option (Value × Bool × Queue) :=
  match q.queue with
  | [] => if q.shuttingDown then some (.nil, true, q) else none
  | item :: rest =>
    some (item, false,
      ⟨rest, q.dirty.filter (fun x => x ≠ item), q.processing.insert item, q.waiting,
        q.backoff, q.shuttingDown⟩)

/-- Modelled from the spec: `Done(key)` (section 4.2): "marks processing finished,
allows the key to be re-added"; a key that was re-added while in flight becomes
pending now. -/
def Queue.Done (q : Queue) (item : Value) : Queue :=
  if item ∈ q.dirty then
    ⟨q.queue ++ [item], q.dirty, q.processing.filter (fun x => x ≠ item), q.waiting,
      q.backoff, q.shuttingDown⟩
  else
    ⟨q.queue, q.dirty, q.processing.filter (fun x => x ≠ item), q.waiting,
      q.backoff, q.shuttingDown⟩

/-- Modelled from the spec: `Forget(key)` (section 4.2): "clears backoff state on
success". -/
def Queue.Forget (q : Queue) (item : Value) : Queue :=
  ⟨q.queue, q.dirty, q.processing, q.waiting, q.backoff.filter (fun x => x ≠ item),
    q.shuttingDown⟩

/-- Modelled from the spec: `AddRateLimited(key)` (section 4.2): "re-adds with
exponential backoff": the failure is counted and the key waits for its delay; after
shutdown nothing is taken in. -/
def Queue.AddRateLimited (q : Queue) (item : Value) : Queue :=
  if q.shuttingDown then
    ⟨q.queue, q.dirty, q.processing, q.waiting, item :: q.backoff, q.shuttingDown⟩
  else
    ⟨q.queue, q.dirty, q.processing, item :: q.waiting, item :: q.backoff,
      q.shuttingDown⟩

/-- Modelled from the spec: the end of a backoff delay: the waiting key is added. -/
def Queue.fire (q : Queue) (item : Value) : Queue :=
  Queue.Add ⟨q.queue, q.dirty, q.processing, q.waiting.erase item, q.backoff,
    q.shuttingDown⟩ item

/-- Modelled from the spec: `ShutDown()` (section 4.2): "rejects further intake". -/
def Queue.ShutDown (q : Queue) : Queue :=
  ⟨q.queue, q.dirty, q.processing, q.waiting, q.backoff, true⟩

/-- The effect on the queue of one recorded call other than `Get`; calls that are
not queue calls leave the queue alone. -/
def Queue.call (q : Queue) : Event → Queue
  | .queueAdd item => q.Add item
  | .queueAddRateLimited item => q.AddRateLimited item
  | .queueForget item => q.Forget item
  | .queueDone item => q.Done item
  | .queueShutDown => q.ShutDown
  | _ => q

/-- A worker of the pool: blocked in or before `Get`, or inside
`processNextWorkItem` with the item `Get` returned and the calls still to make. -/
inductive Worker
  | idle
  | busy (item : Value) (todo : Trace)
  deriving DecidableEq, Repr

/-- The key a worker has in flight: the item it got and has not yet passed to
`Done`. -/
def Worker.inFlight : Worker → Option Value
  | .idle => none
  | .busy item todo => if Event.queueDone item ∈ todo then some item else none

/-- The worker after one of its calls: back in `Get` when none is left. -/
def Worker.next (item : Value) : Trace → Worker
  | [] => .idle
  | e :: rest => .busy item (e :: rest)

/-- The queue and the workers that share it, by worker number. -/
structure System where
  q : Queue
  workers : Nat → Worker

/-- The system `Run` starts from: an empty queue, every worker about to call `Get`. -/
def System.init : System := ⟨Queue.empty, fun _ => .idle⟩

/-- One atomic step of a pool of `n` workers around the shared queue. -/
inductive Step (n : Nat) : System → System → Prop
  /-- the Ingress informer delivers a notification to the registered handlers -/
  | notify (s : System) (cd gw cls : String) (dw : Int) (note : Notification) :
    Step n s ⟨(dispatch (NewController cd gw cls dw).2.1 note).foldl Queue.call s.q,
      s.workers⟩
  /-- a backoff delay ends -/
  | timer (s : System) (item : Value) (hw : item ∈ s.q.waiting) :
    Step n s ⟨s.q.fire item, s.workers⟩
  /-- worker `w` returns from `Get` with an item and enters the closure -/
  | get (s : System) (w : Nat) (env : Env) (item : Value) (q1 : Queue) (hn : w < n)
    (hidle : s.workers w = .idle) (hget : s.q.Get = some (item, false, q1)) :
    Step n s ⟨q1, Function.update s.workers w
      (.busy item (processNextWorkItem env item false).1.tail)⟩
  /-- worker `w` makes its next call -/
  | call (s : System) (w : Nat) (item : Value) (e : Event) (rest : Trace)
    (hbusy : s.workers w = .busy item (e :: rest)) (hne : e ≠ .queueGet) :
    Step n s ⟨s.q.call e, Function.update s.workers w (Worker.next item rest)⟩
  /-- the deferred `ShutDown` of `Run` -/
  | shutdown (s : System) : Step n s ⟨s.q.ShutDown, s.workers⟩

/-- The states a pool of `n` workers can reach from the start. -/
def Reachable (n : Nat) (s : System) : Prop :=
  Relation.ReflTransGen (Step n) System.init s

/-- A step during which worker `w` keeps the key `k` in flight. -/
def FlightStep (n w : Nat) (k : Value) (s s1 : System) : Prop :=
  Step n s s1 ∧ (s.workers w).inFlight = some k ∧ (s1.workers w).inFlight = some k

/-- The calls of `Done`. -/
def Event.isDone : Event → Bool
  | .queueDone _ => true
  | _ => false

/-! ## Sample worlds -/

/-- A world whose cache holds no Ingress at all; its `handleVirtualService` would
delete the derived resource if it were called. -/
def envAbsent : Env :=
  ⟨fun _ _ => .error (.status .NotFound "ingress not found"),
    fun ing => ([.deleteVirtualService ing.meta.Namespace ing.meta.Name], none)⟩

/-- A world whose cache holds every Ingress asked for and whose translation fails
with a malformed-rule error. -/
def envFailing : Env :=
  ⟨fun ns name => .ok ⟨⟨ns, name⟩⟩,
    fun _ => ([], some (.msg "invalid weight sum: 90"))⟩

/-- A world whose cache holds every Ingress asked for and whose
`handleVirtualService` creates the derived resource. -/
def envHealthy : Env :=
  ⟨fun ns name => .ok ⟨⟨ns, name⟩⟩,
    fun ing => ([.getVirtualService ing.meta.Namespace ing.meta.Name,
      .createVirtualService ing.meta.Namespace ing.meta.Name], none)⟩

/-- The invariant of the queue: a key is pending at most once, and a pending key is
dirty and not in flight. -/
structure QInv (q : Queue) : Prop where
  nodup : q.queue.Nodup
  pending : ∀ k ∈ q.queue, k ∈ q.dirty ∧ k ∉ q.processing

/-- The calls a worker still has to make hold at most one `Done`, for its own item. -/
def TodoOK (item : Value) (todo : Trace) : Prop :=
  todo.filter Event.isDone = [.queueDone item] ∨ todo.filter Event.isDone = []

/-- The invariant of the pool: the queue invariant, every busy worker has a
well-formed rest of calls, a key in flight at a worker is in the set of keys in
flight, and no key is in flight at two workers. -/
structure Inv (s : System) : Prop where
  queue : QInv s.q
  todo : ∀ w item t, s.workers w = .busy item t → TodoOK item t
  held : ∀ w k, (s.workers w).inFlight = some k → k ∈ s.q.processing
  excl : ∀ w1 w2 k, (s.workers w1).inFlight = some k →
    (s.workers w2).inFlight = some k → w1 = w2

/-! ## Executable steps and a sample run -/

/-- The state after the informer delivered `note` to the handlers of
`NewController`. -/
def System.notifyStep (s : System) (note : Notification) : System :=
  ⟨(dispatch (NewController "cluster.local" "mesh-gw" "istio" 100).2.1 note).foldl
    Queue.call s.q, s.workers⟩

/-- The state after worker `w` returned from `Get` in world `env`; the state itself
when `Get` blocks or reports shutdown. -/
def System.getStep (s : System) (w : Nat) (env : Env) : System :=
  match s.q.Get with
  | some (item, false, q1) =>
    ⟨q1, Function.update s.workers w
      (.busy item (processNextWorkItem env item false).1.tail)⟩
  | _ => s

/-- The state after worker `w` made its next call; the state itself when `w` has no
call to make. -/
def System.callStep (s : System) (w : Nat) : System :=
  match s.workers w with
  | .busy item (e :: rest) =>
    ⟨s.q.call e, Function.update s.workers w (Worker.next item rest)⟩
  | _ => s

/-- A run of two workers: the Ingress `default/web` is added, worker 0 gets its key
in a world where the Ingress is gone. -/
def sampleInFlight : System :=
  (System.init.notifyStep (.added (.ingress ⟨⟨"default", "web"⟩⟩))).getStep 0 envAbsent

/-- The run continued: worker 0 has made every call of `processNextWorkItem` up to,
and not including, `Done`. -/
def sampleBeforeDone : System :=
  (((sampleInFlight.callStep 0).callStep 0).callStep 0).callStep 0

/-- The run continued: the Ingress is updated three times while its key is in
flight at worker 0. -/
def sampleReAdded : System :=
  ⟨(fun x => Queue.Add x (.str "default/web"))^[3] sampleBeforeDone.q,
    sampleBeforeDone.workers⟩

/-! ## Shape of the traces -/

/-- The method `syncHandler` makes no call on the work queue. -/
theorem syncHandler_quiet (c : Env) (key : String) :
    ∀ e ∈ (syncHandler c key).1, e.isQueueCall = false := by
  intro e he
  unfold syncHandler at he
  split at he
  · simp at he
    subst he
    rfl
  · split at he
    · split at he
      · simp at he
        rcases he with rfl | rfl <;> rfl
      · simp at he
        subst he
        rfl
    · split at he
      · simp at he
        rcases he with rfl | rfl | ⟨a, _, rfl⟩ | rfl <;> rfl
      · simp at he
        rcases he with rfl | rfl | ⟨a, _, rfl⟩ <;> rfl

/-- The trace and result of `processNextWorkItem` for a key whose sync succeeds. -/
theorem processNextWorkItem_ok (c : Env) (key : String) (t : Trace)
    (h : syncHandler c key = (t, none)) :
    processNextWorkItem c (.str key) false
      = (.queueGet :: (t ++ [.queueForget (.str key),
          .klogInfo "successfully synched %q" (some key), .queueDone (.str key)]),
        true) := by
  simp [processNextWorkItem, processItem, h]

/-- The trace and result of `processNextWorkItem` for a key whose sync fails. -/
theorem processNextWorkItem_err (c : Env) (key : String) (t : Trace) (err : GoError)
    (h : syncHandler c key = (t, some err)) :
    processNextWorkItem c (.str key) false
      = (.queueGet :: (t ++ [.queueAddRateLimited (.str key), .queueDone (.str key)])
          ++ [.handleError (.errorSynching key err)], true) := by
  simp [processNextWorkItem, processItem, h]

/-- The trace and result of `processNextWorkItem` for an item that is no string. -/
theorem processNextWorkItem_nonstring (c : Env) (obj : Value)
    (h : ∀ key, obj ≠ .str key) :
    processNextWorkItem c obj false
      = ([.queueGet, .queueForget obj, .handleError (.expectedString obj),
          .queueDone obj], true) := by
  cases obj with
  | str key => exact absurd rfl (h key)
  | nil => rfl
  | explicitKey k => rfl
  | ingress ing => rfl
  | other tag => rfl

/-- No call of `syncHandler` is a `Done`, a `Forget` or an `AddRateLimited`. -/
theorem syncHandler_filter_isDone (c : Env) (key : String) :
    (syncHandler c key).1.filter Event.isDone = [] := by
  rw [List.filter_eq_nil_iff]
  intro e he hd
  have hq := syncHandler_quiet c key e he
  cases e <;> simp [Event.isDone, Event.isQueueCall] at hd hq

/-- The trace of `syncHandler` holds no given queue call. -/
theorem syncHandler_not_mem (c : Env) (key : String) (e : Event)
    (hq : e.isQueueCall = true) : e ∉ (syncHandler c key).1 := by
  intro he
  have := syncHandler_quiet c key e he
  rw [hq] at this
  exact Bool.noConfusion this

/-- The `Done` calls of `processNextWorkItem` on a dequeued item are exactly one,
on that item. -/
theorem processNextWorkItem_dones (c : Env) (obj : Value) :
    (processNextWorkItem c obj false).1.filter Event.isDone = [.queueDone obj] := by
  by_cases hs : ∃ key, obj = .str key
  · obtain ⟨key, rfl⟩ := hs
    rcases hsync : syncHandler c key with ⟨t, _ | err⟩
    · have ht : t.filter Event.isDone = [] := by
        have := syncHandler_filter_isDone c key
        rwa [hsync] at this
      rw [processNextWorkItem_ok c key t hsync]
      simp [List.filter_cons, List.filter_append, ht, Event.isDone]
    · have ht : t.filter Event.isDone = [] := by
        have := syncHandler_filter_isDone c key
        rwa [hsync] at this
      rw [processNextWorkItem_err c key t err hsync]
      simp [List.filter_cons, List.filter_append, ht, Event.isDone]
  · rw [processNextWorkItem_nonstring c obj (fun key hk => hs ⟨key, hk⟩)]
    simp [List.filter_cons, Event.isDone]

/-! ## Worker: one dequeued item -/

/-- C1. For every item that `Get` returned with `shutdown = false`,
`processNextWorkItem` calls `Done` exactly once, on that item; when the item is a
string key and `syncHandler(key)` returns nil it calls `Forget` on it and never
`AddRateLimited`; when `syncHandler(key)` returns an error it calls
`AddRateLimited(key)` and never `Forget`. -/
theorem processNextWorkItem_done_once (c : Env) (obj : Value) :
    (processNextWorkItem c obj false).1.filter Event.isDone = [.queueDone obj]
    ∧ (∀ key, obj = .str key → (syncHandler c key).2 = none →
        Event.queueForget obj ∈ (processNextWorkItem c obj false).1
        ∧ ∀ item, Event.queueAddRateLimited item ∉ (processNextWorkItem c obj false).1)
    ∧ (∀ key err, obj = .str key → (syncHandler c key).2 = some err →
        Event.queueAddRateLimited (.str key) ∈ (processNextWorkItem c obj false).1
        ∧ ∀ item, Event.queueForget item ∉ (processNextWorkItem c obj false).1) := by
  refine ⟨processNextWorkItem_dones c obj, ?_, ?_⟩
  · rintro key rfl hnone
    rcases hsync : syncHandler c key with ⟨t, r⟩
    rw [hsync] at hnone
    simp only at hnone
    subst hnone
    rw [processNextWorkItem_ok c key t hsync]
    refine ⟨by simp, ?_⟩
    intro item hmem
    have hno := syncHandler_not_mem c key (.queueAddRateLimited item) rfl
    rw [hsync] at hno
    simp at hmem
    exact hno hmem
  · rintro key err rfl hsome
    rcases hsync : syncHandler c key with ⟨t, r⟩
    rw [hsync] at hsome
    simp only at hsome
    subst hsome
    rw [processNextWorkItem_err c key t err hsync]
    refine ⟨by simp, ?_⟩
    intro item hmem
    have hno := syncHandler_not_mem c key (.queueForget item) rfl
    rw [hsync] at hno
    simp at hmem
    exact hno hmem

/-- Witness of C1: in a world where the sync of `default/web` fails, the key is
handed to `AddRateLimited`. -/
theorem processNextWorkItem_done_once_witness :
    (syncHandler envFailing "default/web").2 = some (.msg "invalid weight sum: 90")
    ∧ Event.queueAddRateLimited (.str "default/web")
        ∈ (processNextWorkItem envFailing (.str "default/web") false).1 :=
  ⟨rfl, ((processNextWorkItem_done_once envFailing (.str "default/web")).2.2
    "default/web" (.msg "invalid weight sum: 90") rfl rfl).1⟩

/-- The trace of `syncHandler` holds no `Add` and no `AddRateLimited`. -/
theorem syncHandler_filter_isRequeue (c : Env) (key : String) :
    (syncHandler c key).1.filter Event.isRequeue = [] := by
  rw [List.filter_eq_nil_iff]
  intro e he hd
  have hq := syncHandler_quiet c key e he
  cases e <;> simp [Event.isRequeue, Event.isQueueCall] at hd hq

/-- C3, as the code has it. The code has no class of terminal errors: an error of
`handleVirtualService` (a malformed rule, an unresolvable backend, an invalid
weight sum) is returned by `syncHandler` unchanged, and for every error
`syncHandler` returns, `processNextWorkItem` requeues the key: its only requeueing
call is one `AddRateLimited(key)`, it never calls `Forget`, and it returns true. -/
theorem syncHandler_error_requeued (c : Env) (key : String) :
    (∀ ns name ing calls err, SplitMetaNamespaceKey key = .ok (ns, name) →
        c.ingressesLister ns name = .ok ing →
        c.handleVirtualService ing = (calls, some err) →
        (syncHandler c key).2 = some err)
    ∧ (∀ err, (syncHandler c key).2 = some err →
        (processNextWorkItem c (.str key) false).1.filter Event.isRequeue
          = [.queueAddRateLimited (.str key)]
        ∧ (∀ item, Event.queueForget item ∉ (processNextWorkItem c (.str key) false).1)
        ∧ (processNextWorkItem c (.str key) false).2 = true) := by
  constructor
  · intro ns name ing calls err hsplit hget hvs
    simp [syncHandler, hsplit, hget, hvs]
  · intro err hsome
    rcases hsync : syncHandler c key with ⟨t, r⟩
    rw [hsync] at hsome
    simp only at hsome
    subst hsome
    have ht : t.filter Event.isRequeue = [] := by
      have := syncHandler_filter_isRequeue c key
      rwa [hsync] at this
    rw [processNextWorkItem_err c key t err hsync]
    refine ⟨?_, ?_, rfl⟩
    · simp [List.filter_cons, List.filter_append, ht, Event.isRequeue]
    · intro item hmem
      have hno := syncHandler_not_mem c key (.queueForget item) rfl
      rw [hsync] at hno
      simp at hmem
      exact hno hmem

/-- Witness of C3 as amended: the malformed-rule error of `envFailing` reaches the
worker and the key `default/web` is requeued. -/
theorem syncHandler_error_requeued_witness :
    (syncHandler envFailing "default/web").2 = some (.msg "invalid weight sum: 90")
    ∧ (processNextWorkItem envFailing (.str "default/web") false).1.filter
        Event.isRequeue = [.queueAddRateLimited (.str "default/web")] :=
  ⟨(syncHandler_error_requeued envFailing "default/web").1 "default" "web"
      ⟨⟨"default", "web"⟩⟩ [] (.msg "invalid weight sum: 90") rfl rfl rfl,
    ((syncHandler_error_requeued envFailing "default/web").2
      (.msg "invalid weight sum: 90") rfl).1⟩

/-- C3 as stated fails: the sync of `default/web` ends in the terminal error
"invalid weight sum", and the worker calls `AddRateLimited` for the key. -/
theorem terminal_error_is_requeued :
    (syncHandler envFailing "default/web").2 = some (.msg "invalid weight sum: 90")
    ∧ Event.queueAddRateLimited (.str "default/web")
        ∈ (processNextWorkItem envFailing (.str "default/web") false).1 := by
  constructor
  · rfl
  · decide

/-! ## Absent Ingress -/

/-- The run of `syncHandler` on a key whose Ingress the lister reports as not
found: one read of the cache, one logged message, result nil. -/
theorem syncHandler_absent (c : Env) (key ns name : String) (err : GoError)
    (hsplit : SplitMetaNamespaceKey key = .ok (ns, name))
    (hget : c.ingressesLister ns name = .error err) (hnf : IsNotFound err = true) :
    syncHandler c key
      = ([.listerGet ns name, .handleError (.noLongerExists key)], none) := by
  simp [syncHandler, hsplit, hget, hnf]

/-- C5. For every key whose Ingress is absent from the cache (the lister returns a
NotFound error), `syncHandler` returns nil, and `processNextWorkItem` calls
`Forget` on the key, makes no `Add` or `AddRateLimited` call, and passes no error
of the closure to `HandleError`: its calls are exactly `Get`, the cache read, the
"no longer exists" message of `syncHandler`, `Forget`, the success log, `Done`. -/
theorem absent_ingress_is_success (c : Env) (key ns name : String) (err : GoError)
    (hsplit : SplitMetaNamespaceKey key = .ok (ns, name))
    (hget : c.ingressesLister ns name = .error err) (hnf : IsNotFound err = true) :
    (syncHandler c key).2 = none
    ∧ processNextWorkItem c (.str key) false
        = ([.queueGet, .listerGet ns name, .handleError (.noLongerExists key),
            .queueForget (.str key), .klogInfo "successfully synched %q" (some key),
            .queueDone (.str key)], true)
    ∧ Event.queueForget (.str key) ∈ (processNextWorkItem c (.str key) false).1
    ∧ (processNextWorkItem c (.str key) false).1.filter Event.isRequeue = [] := by
  have hs := syncHandler_absent c key ns name err hsplit hget hnf
  have hp := processNextWorkItem_ok c key _ hs
  refine ⟨by rw [hs], by simpa using hp, ?_, ?_⟩
  · rw [hp]
    simp
  · rw [hp]
    simp [List.filter_cons, Event.isRequeue]

/-- Witness of C5: the key `default/web` in a world without that Ingress. -/
theorem absent_ingress_is_success_witness :
    (syncHandler envAbsent "default/web").2 = none
    ∧ Event.queueForget (.str "default/web")
        ∈ (processNextWorkItem envAbsent (.str "default/web") false).1 :=
  ⟨(absent_ingress_is_success envAbsent "default/web" "default" "web"
      (.status .NotFound "ingress not found") rfl rfl rfl).1,
    (absent_ingress_is_success envAbsent "default/web" "default" "web"
      (.status .NotFound "ingress not found") rfl rfl rfl).2.2.1⟩

/-- C2, as the code has it. For every key whose Ingress is absent from the cache
(the lister returns a NotFound error), `syncHandler` reads the cache, logs that the
Ingress no longer exists and returns nil; it does not call `handleVirtualService`
and issues no call on the cluster, so no delete of a VirtualService. -/
theorem absent_ingress_no_cluster_call (c : Env) (key ns name : String)
    (err : GoError) (hsplit : SplitMetaNamespaceKey key = .ok (ns, name))
    (hget : c.ingressesLister ns name = .error err) (hnf : IsNotFound err = true) :
    syncHandler c key
        = ([.listerGet ns name, .handleError (.noLongerExists key)], none)
    ∧ (syncHandler c key).1.filter Event.isClusterCall = []
    ∧ ∀ vns vname,
        Event.client (.deleteVirtualService vns vname) ∉ (syncHandler c key).1 := by
  have hs := syncHandler_absent c key ns name err hsplit hget hnf
  rw [hs]
  refine ⟨rfl, ?_, ?_⟩
  · simp [List.filter_cons, Event.isClusterCall]
  · intro vns vname
    simp

/-- Witness of C2 as amended: the key `default/web` in a world without that
Ingress. -/
theorem absent_ingress_no_cluster_call_witness :
    IsNotFound (.status .NotFound "ingress not found") = true
    ∧ (syncHandler envAbsent "default/web").1.filter Event.isClusterCall = [] :=
  ⟨rfl, (absent_ingress_no_cluster_call envAbsent "default/web" "default" "web"
      (.status .NotFound "ingress not found") rfl rfl rfl).2.1⟩

/-- C2 as stated fails: the lister reports `default/web` as not found, and the run
of `syncHandler` issues no delete of the VirtualService `default/web`, although
`handleVirtualService` of that world would delete it. -/
theorem absent_ingress_delete_not_issued :
    IsNotFound (.status .NotFound "ingress not found") = true
    ∧ (envAbsent.handleVirtualService ⟨⟨"default", "web"⟩⟩).1
        = [.deleteVirtualService "default" "web"]
    ∧ (syncHandler envAbsent "default/web").1
        = [.listerGet "default" "web", .handleError (.noLongerExists "default/web")]
    ∧ Event.client (.deleteVirtualService "default" "web")
        ∉ (syncHandler envAbsent "default/web").1 := by
  refine ⟨rfl, rfl, rfl, ?_⟩
  decide

/-! ## Keys -/

/-- A string with `k` separators splits into `k + 1` pieces. -/
theorem splitOn_length (sep : Char) (l : List Char) :
    (l.splitOn sep).length = l.count sep + 1 := by
  induction l with
  | nil => simp [List.splitOn]
  | cons x xs ih =>
    unfold List.splitOn at ih ⊢
    rw [List.splitOnP_cons]
    by_cases hx : x = sep
    · subst hx
      simp [ih]
    · have : (x == sep) = false := by simpa using hx
      simp [this, ih, List.count_cons, hx]

/-- Two strings without separator, joined by one, split into the two. -/
theorem stringsSplit_join (ns n : String) (h1 : '/' ∉ ns.data) (h2 : '/' ∉ n.data) :
    stringsSplit (ns ++ "/" ++ n) '/' = [ns, n] := by
  have h := List.splitOn_intercalate [ns.data, n.data] '/'
    (by intro l hl; simp at hl; rcases hl with rfl | rfl <;> assumption) (by simp)
  have hd : (ns ++ "/" ++ n).data = ['/'].intercalate [ns.data, n.data] := by
    simp [List.intercalate, String.data_append]
  unfold stringsSplit
  rw [hd, h]
  rfl

/-- A key with two or more separators is rejected by `SplitMetaNamespaceKey`. -/
theorem SplitMetaNamespaceKey_rejects (key : String) (h : 2 ≤ key.data.count '/') :
    SplitMetaNamespaceKey key = .error (.unexpectedKeyFormat key) := by
  have hl : 3 ≤ (stringsSplit key '/').length := by
    unfold stringsSplit
    rw [List.length_map, splitOn_length]
    omega
  unfold SplitMetaNamespaceKey
  split
  · rename_i heq
    rw [heq] at hl
    simp at hl
  · rename_i heq
    rw [heq] at hl
    simp at hl
  · rfl

/-- C10. Malformed work items are dropped, never retried: for a dequeued item that
is not a string, `processNextWorkItem` calls exactly `Get`, `Forget(item)`,
`HandleError` and `Done(item)`, whatever the world (no `syncHandler`, no
`AddRateLimited`); for a string key that `SplitMetaNamespaceKey` rejects, such as
one with more than one `/`, `syncHandler` logs and returns nil without reading the
cache, and the worker calls `Forget` and `Done` and does not requeue. -/
theorem malformed_item_dropped (c : Env) :
    (∀ obj, (∀ key, obj ≠ .str key) →
        processNextWorkItem c obj false
          = ([.queueGet, .queueForget obj, .handleError (.expectedString obj),
              .queueDone obj], true))
    ∧ (∀ key err, SplitMetaNamespaceKey key = .error err →
        syncHandler c key = ([.handleError (.invalidResourceKey key)], none)
        ∧ processNextWorkItem c (.str key) false
          = ([.queueGet, .handleError (.invalidResourceKey key),
              .queueForget (.str key), .klogInfo "successfully synched %q" (some key),
              .queueDone (.str key)], true))
    ∧ (∀ key, 2 ≤ key.data.count '/' → ∃ err, SplitMetaNamespaceKey key = .error err) := by
  refine ⟨fun obj h => processNextWorkItem_nonstring c obj h, ?_, ?_⟩
  · intro key err hsplit
    have hs : syncHandler c key = ([.handleError (.invalidResourceKey key)], none) := by
      simp [syncHandler, hsplit]
    exact ⟨hs, by simpa using processNextWorkItem_ok c key _ hs⟩
  · intro key h
    exact ⟨_, SplitMetaNamespaceKey_rejects key h⟩

/-- Witness of C10: the integer item `other 7`, and the key `a/b/c` with two
separators, in a world that would otherwise sync every key. -/
theorem malformed_item_dropped_witness :
    processNextWorkItem envHealthy (.other 7) false
        = ([.queueGet, .queueForget (.other 7),
            .handleError (.expectedString (.other 7)), .queueDone (.other 7)], true)
    ∧ syncHandler envHealthy "a/b/c"
        = ([.handleError (.invalidResourceKey "a/b/c")], none) :=
  ⟨(malformed_item_dropped envHealthy).1 (.other 7) (fun _ h => Value.noConfusion h),
    ((malformed_item_dropped envHealthy).2.1 "a/b/c" (.unexpectedKeyFormat "a/b/c")
      rfl).1⟩

/-- C8. Key round trip: for an Ingress with non-empty namespace `ns` and name `n`,
neither containing `/`, `enqueueIngress` makes exactly the call `Add("ns/n")`;
`SplitMetaNamespaceKey` of that key succeeds with `(ns, n)`, and `syncHandler`
starts by reading `(ns, n)` from the cache. When key extraction fails,
`enqueueIngress` only reports the error: nothing is pushed. -/
theorem key_round_trip (ns n : String) (hns : ns ≠ "") (h1 : '/' ∉ ns.data)
    (h2 : '/' ∉ n.data) :
    enqueueIngress (.ingress ⟨⟨ns, n⟩⟩) = [.queueAdd (.str (ns ++ "/" ++ n))]
    ∧ SplitMetaNamespaceKey (ns ++ "/" ++ n) = .ok (ns, n)
    ∧ (∀ c : Env, ∃ rest, (syncHandler c (ns ++ "/" ++ n)).1 = .listerGet ns n :: rest)
    ∧ (∀ obj err, MetaNamespaceKeyFunc obj = .error err →
        enqueueIngress obj = [.handleError err]) := by
  have hlen : ns.length > 0 := by
    rcases ns with ⟨l⟩
    cases l with
    | nil => exact absurd rfl hns
    | cons a l => simp [String.length]
  have hsplit : SplitMetaNamespaceKey (ns ++ "/" ++ n) = .ok (ns, n) := by
    unfold SplitMetaNamespaceKey
    rw [stringsSplit_join ns n h1 h2]
  refine ⟨?_, hsplit, ?_, ?_⟩
  · simp [enqueueIngress, MetaNamespaceKeyFunc, hlen]
  · intro c
    unfold syncHandler
    rw [hsplit]
    simp only
    split
    · split
      · exact ⟨_, rfl⟩
      · exact ⟨_, rfl⟩
    · split
      · exact ⟨_, List.cons_append _ _ _⟩
      · exact ⟨_, List.cons_append _ _ _⟩
  · intro obj err herr
    simp [enqueueIngress, herr]

/-- Witness of C8: the Ingress `default/web`. -/
theorem key_round_trip_witness :
    enqueueIngress (.ingress ⟨⟨"default", "web"⟩⟩) = [.queueAdd (.str "default/web")]
    ∧ SplitMetaNamespaceKey "default/web" = .ok ("default", "web") :=
  ⟨(key_round_trip "default" "web" (by decide) (by decide) (by decide)).1,
    (key_round_trip "default" "web" (by decide) (by decide) (by decide)).2.1⟩

/-! ## The worker loop -/

/-- A script of dequeues without shutdown is processed to its end: the loop of
`runWorker` goes on to whatever follows. -/
theorem runWorker_append (ds rest : List Dequeue) (h : ∀ d ∈ ds, d.shutdown = false) :
    runWorker (ds ++ rest)
      = ds.flatMap (fun d => (processNextWorkItem d.env d.obj d.shutdown).1)
        ++ runWorker rest := by
  induction ds with
  | nil => simp
  | cons d ds ih =>
    have hd : d.shutdown = false := h d (List.mem_cons_self _ _)
    have hrest : ∀ x ∈ ds, x.shutdown = false :=
      fun x hx => h x (List.mem_cons_of_mem _ hx)
    have h2 : (processNextWorkItem d.env d.obj d.shutdown).2 = true := by
      rw [hd]
      unfold processNextWorkItem
      simp only [Bool.false_eq_true, if_false]
      split <;> rfl
    rw [List.cons_append, runWorker]
    rcases hp : processNextWorkItem d.env d.obj d.shutdown with ⟨t, b⟩
    rw [hp] at h2
    simp only at h2
    subst h2
    simp [List.flatMap_cons, hp, ih hrest]

/-- C6. The method `processNextWorkItem` returns false if and only if `Get`
reported shutdown; for every dequeued item, whatever its type and whatever
`syncHandler` returns, it returns true. So the loop of `runWorker` continues: a
script of dequeues without shutdown is processed item by item to its end, and the
loop ends at the first dequeue that reports shutdown. -/
theorem processNextWorkItem_false_iff_shutdown :
    (∀ (c : Env) (obj : Value) (shutdown : Bool),
        (processNextWorkItem c obj shutdown).2 = false ↔ shutdown = true)
    ∧ (∀ ds rest : List Dequeue, (∀ d ∈ ds, d.shutdown = false) →
        runWorker (ds ++ rest)
          = ds.flatMap (fun d => (processNextWorkItem d.env d.obj d.shutdown).1)
            ++ runWorker rest)
    ∧ (∀ (c : Env) (obj : Value) (rest : List Dequeue),
        runWorker (⟨c, obj, true⟩ :: rest) = [.queueGet]) := by
  refine ⟨?_, runWorker_append, ?_⟩
  · intro c obj shutdown
    cases shutdown with
    | true => simp [processNextWorkItem]
    | false =>
      unfold processNextWorkItem
      simp only [Bool.false_eq_true, if_false, iff_false]
      split <;> simp
  · intro c obj rest
    simp [runWorker, processNextWorkItem]

/-- Witness of C6: a worker that dequeues a key whose sync fails, then an item
that is no string, then a key that syncs, makes all three `Get` calls and goes on. -/
theorem processNextWorkItem_false_iff_shutdown_witness :
    (processNextWorkItem envFailing (.str "default/web") false).2 = true
    ∧ runWorker ([⟨envFailing, .str "default/web", false⟩, ⟨envHealthy, .other 7, false⟩,
          ⟨envHealthy, .str "default/web", false⟩] ++ [⟨envHealthy, .nil, true⟩])
        = ([⟨envFailing, .str "default/web", false⟩, ⟨envHealthy, .other 7, false⟩,
            ⟨envHealthy, .str "default/web", false⟩] : List Dequeue).flatMap
            (fun d => (processNextWorkItem d.env d.obj d.shutdown).1)
          ++ runWorker [⟨envHealthy, .nil, true⟩] :=
  ⟨by
    have h := (processNextWorkItem_false_iff_shutdown.1 envFailing
      (.str "default/web") false).not
    simpa using h,
   processNextWorkItem_false_iff_shutdown.2.1 _ _ (by
    intro d hd
    simp at hd
    rcases hd with rfl | rfl | rfl <;> rfl)⟩

/-! ## Event handlers -/

/-- C4, as the code has it. `NewController` registers one handler set on the
Ingress informer, with an add and an update callback and no delete callback: an add
or update notification for an Ingress with non-empty namespace `ns` and name `n`
results in `workqueue.Add("ns/n")` (for an update, the key of the new object); a
delete notification results in no call at all. -/
theorem ingress_notifications (cd gw cls : String) (dw : Int) (ns n : String)
    (hns : ns ≠ "") :
    dispatch (NewController cd gw cls dw).2.1 (.added (.ingress ⟨⟨ns, n⟩⟩))
        = [.queueAdd (.str (ns ++ "/" ++ n))]
    ∧ (∀ old, dispatch (NewController cd gw cls dw).2.1
          (.updated old (.ingress ⟨⟨ns, n⟩⟩)) = [.queueAdd (.str (ns ++ "/" ++ n))])
    ∧ (∀ obj, dispatch (NewController cd gw cls dw).2.1 (.deleted obj) = []) := by
  have hlen : ns.length > 0 := by
    rcases ns with ⟨l⟩
    cases l with
    | nil => exact absurd rfl hns
    | cons a l => simp [String.length]
  have hk : enqueueIngress (.ingress ⟨⟨ns, n⟩⟩) = [.queueAdd (.str (ns ++ "/" ++ n))] := by
    simp [enqueueIngress, MetaNamespaceKeyFunc, hlen]
  refine ⟨?_, ?_, ?_⟩
  · simp [dispatch, NewController, ResourceEventHandlerFuncs.notify, hk]
  · intro old
    simp [dispatch, NewController, ResourceEventHandlerFuncs.notify, hk]
  · intro obj
    simp [dispatch, NewController, ResourceEventHandlerFuncs.notify]

/-- Witness of C4 as amended: the Ingress `default/web`. -/
theorem ingress_notifications_witness :
    dispatch (NewController "cluster.local" "mesh-gw" "istio" 100).2.1
        (.added (.ingress ⟨⟨"default", "web"⟩⟩)) = [.queueAdd (.str "default/web")] :=
  (ingress_notifications "cluster.local" "mesh-gw" "istio" 100 "default" "web"
    (by decide)).1

/-- C4 as stated fails: the add notification for the Ingress `default/web` results
in `Add("default/web")`, the delete notification for the same Ingress results in no
call, so not in `Add("default/web")`. -/
theorem delete_notification_not_enqueued :
    dispatch (NewController "cluster.local" "mesh-gw" "istio" 100).2.1
        (.added (.ingress ⟨⟨"default", "web"⟩⟩)) = [.queueAdd (.str "default/web")]
    ∧ dispatch (NewController "cluster.local" "mesh-gw" "istio" 100).2.1
        (.deleted (.ingress ⟨⟨"default", "web"⟩⟩)) = []
    ∧ Event.queueAdd (.str "default/web")
        ∉ dispatch (NewController "cluster.local" "mesh-gw" "istio" 100).2.1
            (.deleted (.ingress ⟨⟨"default", "web"⟩⟩)) := by
  refine ⟨rfl, rfl, ?_⟩
  decide

/-! ## Start-up -/

/-- The loop of `Run` only starts workers, and as many as there are numbers from
`i` up to `threadiness`. -/
theorem startWorkers_spec (threadiness : Int) (k : Nat) :
    ∀ i : Int, (threadiness - i).toNat = k →
      (startWorkers threadiness i).filter Event.isStartWorker
          = startWorkers threadiness i
      ∧ (startWorkers threadiness i).length = k := by
  induction k with
  | zero =>
    intro i hi
    have : ¬ i < threadiness := by omega
    rw [startWorkers]
    simp [this]
  | succ k ih =>
    intro i hi
    have hlt : i < threadiness := by omega
    have hk : (threadiness - (i + 1)).toNat = k := by omega
    rw [startWorkers]
    simp only [hlt, if_true]
    obtain ⟨hf, hl⟩ := ih (i + 1) hk
    constructor
    · rw [List.filter_cons]
      simp [Event.isStartWorker, hf]
    · simp [hl]

/-- C7. The method `Run` starts workers only after the caches have synced: it
calls `WaitForCacheSync` on the ingress, service and virtual-service sync
functions of the controller; if the answer is false it returns the error "failed
to wait for caches to sync" and starts no worker; if it is true, all worker starts
come after that call, there are exactly `threadiness` of them (none for a negative
`threadiness`), and `Run` returns nil after the stop signal; in both cases the
queue is shut down last. -/
theorem Run_waits_for_caches (c : Controller) (W : List InformerSynced → Bool)
    (threadiness : Int) :
    (W [c.ingressesSynched, c.servicesSynched, c.virtualServicesSynched] = false →
      (Run c W threadiness).2 = some (.msg "failed to wait for caches to sync")
      ∧ (Run c W threadiness).1.filter Event.isStartWorker = []
      ∧ (Run c W threadiness).1.getLast? = some .queueShutDown)
    ∧ (W [c.ingressesSynched, c.servicesSynched, c.virtualServicesSynched] = true →
      (Run c W threadiness).2 = none
      ∧ ((Run c W threadiness).1.filter Event.isStartWorker).length = threadiness.toNat
      ∧ (0 ≤ threadiness →
          (((Run c W threadiness).1.filter Event.isStartWorker).length : Int)
            = threadiness)
      ∧ (∃ pre post, (Run c W threadiness).1
            = pre ++ .waitForCacheSync [c.ingressesSynched, c.servicesSynched,
                c.virtualServicesSynched] :: post
          ∧ pre.filter Event.isStartWorker = []
          ∧ Event.recvStop ∈ post)
      ∧ (Run c W threadiness).1.getLast? = some .queueShutDown)
    ∧ (∀ cd gw cls dw,
        [(NewController cd gw cls dw).1.ingressesSynched,
          (NewController cd gw cls dw).1.servicesSynched,
          (NewController cd gw cls dw).1.virtualServicesSynched]
          = [.ingresses, .services, .virtualServices]) := by
  obtain ⟨hf, hl⟩ := startWorkers_spec threadiness threadiness.toNat 0 (by simp)
  refine ⟨?_, ?_, ?_⟩
  · intro h
    simp [Run, h, List.filter_cons, Event.isStartWorker]
  · intro h
    have hcount : ((Run c W threadiness).1.filter Event.isStartWorker).length
        = threadiness.toNat := by
      simp [Run, h, List.filter_cons, List.filter_append, Event.isStartWorker, hf, hl]
    refine ⟨by simp [Run, h], hcount, ?_, ?_, ?_⟩
    · intro hnn
      rw [hcount]
      exact Int.toNat_of_nonneg hnn
    · refine ⟨[.klogInfo "starting controller" none,
          .klogInfo "waiting for informer caches to sync" none],
        [.klogInfo "starting workers" none] ++ startWorkers threadiness 0
          ++ [.klogInfo "started workers" none, .recvStop,
              .klogInfo "shutting down workers" none, .queueShutDown], ?_, ?_, ?_⟩
      · simp [Run, h]
      · simp [List.filter_cons, Event.isStartWorker]
      · simp
    · have hrun : (Run c W threadiness).1
          = ([.klogInfo "starting controller" none,
              .klogInfo "waiting for informer caches to sync" none,
              .waitForCacheSync [c.ingressesSynched, c.servicesSynched,
                c.virtualServicesSynched],
              .klogInfo "starting workers" none] ++ startWorkers threadiness 0)
            ++ [.klogInfo "started workers" none, .recvStop,
                .klogInfo "shutting down workers" none, .queueShutDown] := by
        simp [Run, h]
      rw [hrun, List.getLast?_append]
      rfl
  · intro cd gw cls dw
    rfl

/-- Witness of C7: three workers, once with caches that never sync and once with
caches that do. -/
theorem Run_waits_for_caches_witness :
    (Run (NewController "cluster.local" "mesh-gw" "istio" 100).1 (fun _ => false) 3).2
        = some (.msg "failed to wait for caches to sync")
    ∧ ((Run (NewController "cluster.local" "mesh-gw" "istio" 100).1 (fun _ => true)
          3).1.filter Event.isStartWorker).length = 3 :=
  ⟨((Run_waits_for_caches (NewController "cluster.local" "mesh-gw" "istio" 100).1
      (fun _ => false) 3).1 rfl).1,
    ((Run_waits_for_caches (NewController "cluster.local" "mesh-gw" "istio" 100).1
      (fun _ => true) 3).2.1 rfl).2.1⟩

/-! ## The event queue: invariant -/

/-- The operation `Add` keeps the queue invariant. -/
theorem QInv_Add (q : Queue) (k : Value) (h : QInv q) : QInv (q.Add k) := by
  unfold Queue.Add
  split
  · exact h
  · split
    · exact h
    · rename_i hsd hd
      split
      · rename_i hp
        refine ⟨h.nodup, ?_⟩
        intro j hj
        have := h.pending j hj
        exact ⟨List.mem_cons_of_mem _ this.1, this.2⟩
      · rename_i hp
        have hnq : k ∉ q.queue := fun hk => hd (h.pending k hk).1
        refine ⟨?_, ?_⟩
        · simp only
          rw [List.nodup_append]
          refine ⟨h.nodup, List.nodup_singleton k, ?_⟩
          intro a ha hb
          simp at hb
          subst hb
          exact hnq ha
        · intro j hj
          simp only [List.mem_append, List.mem_singleton] at hj
          rcases hj with hj | rfl
          · have := h.pending j hj
            exact ⟨List.mem_cons_of_mem _ this.1, this.2⟩
          · exact ⟨List.mem_cons_self _ _, hp⟩

/-- The operation `Add` leaves the keys in flight and the shutdown flag alone and
never makes a key clean. -/
theorem Add_facts (q : Queue) (k : Value) :
    (q.Add k).processing = q.processing
    ∧ (q.Add k).shuttingDown = q.shuttingDown
    ∧ (∀ j, j ∈ q.dirty → j ∈ (q.Add k).dirty)
    ∧ (q.shuttingDown = false → k ∈ (q.Add k).dirty) := by
  unfold Queue.Add
  split
  · rename_i hsd
    simp [hsd]
  · split
    · rename_i hd
      exact ⟨rfl, rfl, fun _ hj => hj, fun _ => hd⟩
    · split
      · exact ⟨rfl, rfl, fun _ hj => List.mem_cons_of_mem _ hj,
          fun _ => List.mem_cons_self _ _⟩
      · exact ⟨rfl, rfl, fun _ hj => List.mem_cons_of_mem _ hj,
          fun _ => List.mem_cons_self _ _⟩

/-- A call that is no `Done` keeps the queue invariant, leaves the keys in flight
alone and never makes a key clean. -/
theorem call_not_done (q : Queue) (e : Event) (hne : e.isDone = false) (h : QInv q) :
    QInv (q.call e) ∧ (q.call e).processing = q.processing
    ∧ (∀ j, j ∈ q.dirty → j ∈ (q.call e).dirty) := by
  cases e with
  | queueDone item => simp [Event.isDone] at hne
  | queueAdd item =>
    exact ⟨QInv_Add q item h, (Add_facts q item).1, (Add_facts q item).2.2.1⟩
  | queueAddRateLimited item =>
    simp only [Queue.call, Queue.AddRateLimited]
    split
    · exact ⟨⟨h.nodup, h.pending⟩, rfl, fun _ hj => hj⟩
    · exact ⟨⟨h.nodup, h.pending⟩, rfl, fun _ hj => hj⟩
  | queueForget item => exact ⟨⟨h.nodup, h.pending⟩, rfl, fun _ hj => hj⟩
  | queueShutDown => exact ⟨⟨h.nodup, h.pending⟩, rfl, fun _ hj => hj⟩
  | queueGet => exact ⟨h, rfl, fun _ hj => hj⟩
  | listerGet ns name => exact ⟨h, rfl, fun _ hj => hj⟩
  | handleVirtualService ing => exact ⟨h, rfl, fun _ hj => hj⟩
  | client call => exact ⟨h, rfl, fun _ hj => hj⟩
  | handleError err => exact ⟨h, rfl, fun _ hj => hj⟩
  | klogInfo text arg => exact ⟨h, rfl, fun _ hj => hj⟩
  | klogError text err => exact ⟨h, rfl, fun _ hj => hj⟩
  | waitForCacheSync syncs => exact ⟨h, rfl, fun _ hj => hj⟩
  | startWorker i => exact ⟨h, rfl, fun _ hj => hj⟩
  | recvStop => exact ⟨h, rfl, fun _ hj => hj⟩

/-- The operation `Done` on a key in flight keeps the queue invariant, takes just
that key out of flight, leaves the dirty keys alone, and makes the key pending
exactly once when it is dirty. -/
theorem Done_facts (q : Queue) (k : Value) (h : QInv q) (hk : k ∈ q.processing) :
    QInv (q.Done k)
    ∧ (∀ j, j ∈ (q.Done k).processing ↔ j ∈ q.processing ∧ j ≠ k)
    ∧ (q.Done k).dirty = q.dirty
    ∧ (k ∈ q.dirty → (q.Done k).queue.count k = 1) := by
  have hnq : k ∉ q.queue := fun hq => (h.pending k hq).2 hk
  unfold Queue.Done
  split
  · rename_i hd
    refine ⟨⟨?_, ?_⟩, ?_, rfl, ?_⟩
    · simp only
      rw [List.nodup_append]
      refine ⟨h.nodup, List.nodup_singleton k, ?_⟩
      intro a ha hb
      simp at hb
      subst hb
      exact hnq ha
    · intro j hj
      simp only [List.mem_append, List.mem_singleton] at hj
      rcases hj with hj | rfl
      · have := h.pending j hj
        refine ⟨this.1, ?_⟩
        simp only [List.mem_filter]
        exact fun hc => this.2 hc.1
      · refine ⟨hd, ?_⟩
        simp [List.mem_filter]
    · intro j
      simp [List.mem_filter]
    · intro _
      simp only [List.count_append]
      rw [List.count_eq_zero.mpr hnq]
      simp
  · rename_i hd
    refine ⟨⟨h.nodup, ?_⟩, ?_, rfl, fun hc => absurd hc hd⟩
    · intro j hj
      have := h.pending j hj
      refine ⟨this.1, ?_⟩
      simp only [List.mem_filter]
      exact fun hc => this.2 hc.1
    · intro j
      simp [List.mem_filter]

/-- The operation `Get` that returns an item keeps the queue invariant; the item
was pending, so dirty and not in flight; it is now in flight, neither pending nor
dirty, and every other key is as dirty and as much in flight as before. -/
theorem Get_facts (q q1 : Queue) (item : Value) (h : QInv q)
    (hget : q.Get = some (item, false, q1)) :
    QInv q1 ∧ item ∈ q.queue ∧ item ∉ q.processing
    ∧ (∀ j, j ∈ q1.processing ↔ j = item ∨ j ∈ q.processing)
    ∧ (∀ j, j ∈ q1.dirty ↔ j ∈ q.dirty ∧ j ≠ item)
    ∧ item ∉ q1.queue := by
  unfold Queue.Get at hget
  split at hget
  · split at hget
    · simp at hget
    · simp at hget
  · rename_i x rest hq
    simp only [Option.some.injEq, Prod.mk.injEq, true_and] at hget
    obtain ⟨rfl, rfl⟩ := hget
    have hnd := h.nodup
    rw [hq] at hnd
    have hx : x ∈ q.queue := by rw [hq]; exact List.mem_cons_self _ _
    have hxr : x ∉ rest := (List.nodup_cons.mp hnd).1
    refine ⟨⟨(List.nodup_cons.mp hnd).2, ?_⟩, hx, (h.pending x hx).2, ?_, ?_, hxr⟩
    · intro j hj
      have hjq : j ∈ q.queue := by rw [hq]; exact List.mem_cons_of_mem _ hj
      have hjx : j ≠ x := fun hc => hxr (hc ▸ hj)
      have := h.pending j hjq
      refine ⟨?_, ?_⟩
      · simp only [List.mem_filter]
        exact ⟨this.1, by simpa using hjx⟩
      · simp only [List.mem_insert_iff]
        rintro (hc | hc)
        · exact hjx hc
        · exact this.2 hc
    · intro j
      simp [List.mem_insert_iff]
    · intro j
      simp [List.mem_filter]

/-- The operation `Done` leaves the dirty keys alone. -/
theorem Done_dirty (q : Queue) (k : Value) : (q.Done k).dirty = q.dirty := by
  unfold Queue.Done
  split <;> rfl

/-- Adding a key `K` times keeps the queue invariant, the keys in flight and the
dirty keys, and for `K ≥ 1` on an open queue the key is dirty afterwards. -/
theorem iterate_Add_facts (k : Value) (K : Nat) (q : Queue) (h : QInv q) :
    QInv ((fun x => Queue.Add x k)^[K] q)
    ∧ ((fun x => Queue.Add x k)^[K] q).processing = q.processing
    ∧ ((fun x => Queue.Add x k)^[K] q).shuttingDown = q.shuttingDown
    ∧ (∀ j, j ∈ q.dirty → j ∈ ((fun x => Queue.Add x k)^[K] q).dirty)
    ∧ (1 ≤ K → q.shuttingDown = false → k ∈ ((fun x => Queue.Add x k)^[K] q).dirty) := by
  induction K with
  | zero => exact ⟨h, rfl, rfl, fun _ hj => hj, fun h0 => absurd h0 (by decide)⟩
  | succ K ih =>
    rw [Function.iterate_succ_apply']
    obtain ⟨hq, hp, hs, hd, _⟩ := ih
    have hf := Add_facts ((fun x => Queue.Add x k)^[K] q) k
    refine ⟨QInv_Add _ k hq, hf.1.trans hp, hf.2.1.trans hs,
      fun j hj => hf.2.2.1 j (hd j hj), fun _ hopen => hf.2.2.2 (hs.trans hopen)⟩

/-! ## The worker pool: invariant -/

/-- The handlers of `NewController` answer a notification with nothing, with one
logged error, or with one `Add` of a string key. -/
theorem dispatch_cases (cd gw cls : String) (dw : Int) (note : Notification) :
    dispatch (NewController cd gw cls dw).2.1 note = []
    ∨ (∃ err, dispatch (NewController cd gw cls dw).2.1 note = [.handleError err])
    ∨ (∃ key, dispatch (NewController cd gw cls dw).2.1 note = [.queueAdd (.str key)]) := by
  have henq : ∀ obj, (∃ err, enqueueIngress obj = [.handleError err])
      ∨ (∃ key, enqueueIngress obj = [.queueAdd (.str key)]) := by
    intro obj
    unfold enqueueIngress
    split
    · exact Or.inl ⟨_, rfl⟩
    · exact Or.inr ⟨_, rfl⟩
  cases note with
  | added obj =>
    right
    simpa [dispatch, NewController, ResourceEventHandlerFuncs.notify] using henq obj
  | updated old new =>
    right
    simpa [dispatch, NewController, ResourceEventHandlerFuncs.notify] using henq new
  | deleted obj =>
    left
    simp [dispatch, NewController, ResourceEventHandlerFuncs.notify]

/-- The queue after a notification: the invariant holds, the keys in flight are
the same, no key became clean. -/
theorem notify_facts (cd gw cls : String) (dw : Int) (note : Notification)
    (q : Queue) (h : QInv q) :
    QInv ((dispatch (NewController cd gw cls dw).2.1 note).foldl Queue.call q)
    ∧ ((dispatch (NewController cd gw cls dw).2.1 note).foldl Queue.call q).processing
        = q.processing
    ∧ (∀ j, j ∈ q.dirty →
        j ∈ ((dispatch (NewController cd gw cls dw).2.1 note).foldl Queue.call q).dirty) := by
  rcases dispatch_cases cd gw cls dw note with h0 | ⟨err, h0⟩ | ⟨key, h0⟩
  · rw [h0]
    exact ⟨h, rfl, fun _ hj => hj⟩
  · rw [h0]
    exact ⟨h, rfl, fun _ hj => hj⟩
  · rw [h0]
    exact ⟨QInv_Add q _ h, (Add_facts q _).1, (Add_facts q _).2.2.1⟩

/-- The queue after the end of a backoff delay: the invariant holds, the keys in
flight are the same, no key became clean. -/
theorem fire_facts (q : Queue) (item : Value) (h : QInv q) :
    QInv (q.fire item) ∧ (q.fire item).processing = q.processing
    ∧ (∀ j, j ∈ q.dirty → j ∈ (q.fire item).dirty) := by
  have hf := Add_facts ⟨q.queue, q.dirty, q.processing, q.waiting.erase item,
    q.backoff, q.shuttingDown⟩ item
  unfold Queue.fire
  exact ⟨QInv_Add _ item ⟨h.nodup, h.pending⟩, hf.1, hf.2.2.1⟩

/-- A worker that has made its last call has nothing in flight, like a busy worker
with that rest of calls. -/
theorem inFlight_next (item : Value) (rest : Trace) :
    (Worker.next item rest).inFlight = (Worker.busy item rest).inFlight := by
  cases rest with
  | nil => simp [Worker.next, Worker.inFlight]
  | cons e rest => rfl

/-- A busy worker has its own item in flight or nothing. -/
theorem inFlight_busy (item k : Value) (t : Trace)
    (h : (Worker.busy item t).inFlight = some k) :
    k = item ∧ Event.queueDone item ∈ t := by
  simp only [Worker.inFlight] at h
  split at h
  · rename_i hm
    simp at h
    exact ⟨h.symm, hm⟩
  · simp at h

/-- A call that is no `Done` does not change what the worker has in flight. -/
theorem inFlight_cons (item : Value) (e : Event) (rest : Trace)
    (he : e.isDone = false) :
    (Worker.busy item (e :: rest)).inFlight = (Worker.busy item rest).inFlight := by
  have : e ≠ .queueDone item := by
    rintro rfl
    simp [Event.isDone] at he
  simp [Worker.inFlight, List.mem_cons, this.symm]

/-- The first call of `processNextWorkItem` is `Get`. -/
theorem processNextWorkItem_head (c : Env) (obj : Value) :
    ∃ tl, (processNextWorkItem c obj false).1 = .queueGet :: tl := by
  unfold processNextWorkItem
  simp only [Bool.false_eq_true, if_false]
  split
  · exact ⟨_, List.cons_append _ _ _⟩
  · exact ⟨_, rfl⟩

/-- The calls of `processNextWorkItem` after `Get` hold one `Done`, for the item. -/
theorem processNextWorkItem_todo (c : Env) (obj : Value) :
    (processNextWorkItem c obj false).1.tail.filter Event.isDone = [.queueDone obj] := by
  obtain ⟨tl, htl⟩ := processNextWorkItem_head c obj
  have h := processNextWorkItem_dones c obj
  rw [htl] at h ⊢
  simpa [List.filter_cons, Event.isDone] using h

/-- The start state satisfies the invariant. -/
theorem Inv_init : Inv System.init := by
  refine ⟨⟨List.nodup_nil, ?_⟩, ?_, ?_, ?_⟩
  · intro k hk
    simp [System.init, Queue.empty] at hk
  · intro w item t h
    simp [System.init] at h
  · intro w k h
    simp [System.init, Worker.inFlight] at h
  · intro w1 w2 k h
    simp [System.init, Worker.inFlight] at h

/-- A change of the queue that keeps its invariant and the keys in flight keeps the
invariant of the pool. -/
theorem Inv_queue (s : System) (q1 : Queue) (h : Inv s) (hq : QInv q1)
    (hp : q1.processing = s.q.processing) : Inv ⟨q1, s.workers⟩ := by
  refine ⟨hq, h.todo, ?_, h.excl⟩
  intro w k hk
  simp only
  rw [hp]
  exact h.held w k hk

/-- A change of one worker keeps the invariant of the pool when the new queue
satisfies its invariant and still holds the keys of the other workers, and the new
worker state is well formed, has its key in the set of keys in flight and shares it
with no other worker. -/
theorem Inv_update (s : System) (q1 : Queue) (w : Nat) (wk : Worker) (h : Inv s)
    (hq : QInv q1)
    (htodo : ∀ item t, wk = .busy item t → TodoOK item t)
    (hheld : ∀ k, wk.inFlight = some k → k ∈ q1.processing)
    (hothers : ∀ w1 k, w1 ≠ w → (s.workers w1).inFlight = some k →
      k ∈ q1.processing ∧ wk.inFlight ≠ some k) :
    Inv ⟨q1, Function.update s.workers w wk⟩ := by
  refine ⟨hq, ?_, ?_, ?_⟩
  · intro w1 item t hw
    by_cases hww : w1 = w
    · subst hww
      simp only [Function.update_same] at hw
      exact htodo item t hw
    · simp only [Function.update_noteq hww] at hw
      exact h.todo w1 item t hw
  · intro w1 k hk
    by_cases hww : w1 = w
    · subst hww
      simp only [Function.update_same] at hk
      exact hheld k hk
    · simp only [Function.update_noteq hww] at hk
      exact (hothers w1 k hww hk).1
  · intro w1 w2 k h1 h2
    by_cases hw1 : w1 = w
    · by_cases hw2 : w2 = w
      · rw [hw1, hw2]
      · subst hw1
        simp only [Function.update_same] at h1
        simp only [Function.update_noteq hw2] at h2
        exact absurd h1 (hothers w2 k hw2 h2).2
    · by_cases hw2 : w2 = w
      · subst hw2
        simp only [Function.update_same] at h2
        simp only [Function.update_noteq hw1] at h1
        exact absurd h2 (hothers w1 k hw1 h1).2
      · simp only [Function.update_noteq hw1] at h1
        simp only [Function.update_noteq hw2] at h2
        exact h.excl w1 w2 k h1 h2

/-- A well-formed rest of calls that starts with a `Done`: the `Done` is for the
worker's item, which is in flight, and no further `Done` follows. -/
theorem TodoOK_done (item j : Value) (rest : Trace)
    (h : TodoOK item (.queueDone j :: rest)) :
    j = item ∧ rest.filter Event.isDone = []
    ∧ (Worker.busy item (.queueDone j :: rest)).inFlight = some item
    ∧ (Worker.next item rest).inFlight = none := by
  have hf : (Event.queueDone j :: rest).filter Event.isDone
      = .queueDone j :: rest.filter Event.isDone := by
    simp [List.filter_cons, Event.isDone]
  unfold TodoOK at h
  rw [hf] at h
  rcases h with h | h
  · simp only [List.cons.injEq, Event.queueDone.injEq] at h
    obtain ⟨rfl, hrest⟩ := h
    have hnm : Event.queueDone j ∉ rest := by
      intro hm
      have : Event.queueDone j ∈ rest.filter Event.isDone :=
        List.mem_filter.mpr ⟨hm, rfl⟩
      rw [hrest] at this
      simp at this
    refine ⟨rfl, hrest, by simp [Worker.inFlight], ?_⟩
    rw [inFlight_next]
    simp [Worker.inFlight, hnm]
  · simp at h

/-- Every step of the pool keeps the invariant. -/
theorem Inv_step (n : Nat) (s s1 : System) (h : Inv s) (hs : Step n s s1) : Inv s1 := by
  cases hs with
  | notify cd gw cls dw note =>
    obtain ⟨hq, hp, _⟩ := notify_facts cd gw cls dw note s.q h.queue
    exact Inv_queue s _ h hq hp
  | timer item hw =>
    obtain ⟨hq, hp, _⟩ := fire_facts s.q item h.queue
    exact Inv_queue s _ h hq hp
  | shutdown => exact Inv_queue s _ h ⟨h.queue.nodup, h.queue.pending⟩ rfl
  | get w env item q1 hn hidle hget =>
    obtain ⟨hq, hmem, hnp, hproc, hdirty, hnq⟩ := Get_facts s.q q1 item h.queue hget
    apply Inv_update s q1 w _ h hq
    · intro item1 t hw
      simp only [Worker.busy.injEq] at hw
      obtain ⟨rfl, rfl⟩ := hw
      exact Or.inl (processNextWorkItem_todo env item)
    · intro k hk
      exact (hproc k).2 (Or.inl (inFlight_busy _ _ _ hk).1)
    · intro w1 k hw1 hk
      refine ⟨(hproc k).2 (Or.inr (h.held w1 k hk)), ?_⟩
      intro hc
      have := (inFlight_busy _ _ _ hc).1
      subst this
      exact hnp (h.held w1 k hk)
  | call w item e rest hbusy hne =>
    have htd := h.todo w item (e :: rest) hbusy
    cases hdone : e.isDone with
    | false =>
      obtain ⟨hq, hp, _⟩ := call_not_done s.q e hdone h.queue
      have hfl : (Worker.next item rest).inFlight = (s.workers w).inFlight := by
        rw [inFlight_next, hbusy, inFlight_cons _ _ _ hdone]
      apply Inv_update s _ w _ h hq
      · intro item1 t hw
        cases rest with
        | nil => simp [Worker.next] at hw
        | cons e1 rest1 =>
          simp only [Worker.next, Worker.busy.injEq] at hw
          obtain ⟨rfl, rfl⟩ := hw
          unfold TodoOK at htd ⊢
          rw [List.filter_cons, hdone] at htd
          simpa using htd
      · intro k hk
        rw [hp]
        rw [hfl] at hk
        exact h.held w k hk
      · intro w1 k hw1 hk
        rw [hp, hfl]
        refine ⟨h.held w1 k hk, ?_⟩
        intro hc
        exact hw1 (h.excl w1 w k hk hc)
    | true =>
      cases e with
      | queueDone j =>
        obtain ⟨rfl, hrest, hin, hout⟩ := TodoOK_done item j rest htd
        have hw : (s.workers w).inFlight = some j := by rw [hbusy]; exact hin
        obtain ⟨hq, hproc, _, _⟩ := Done_facts s.q j h.queue (h.held w j hw)
        apply Inv_update s _ w _ h hq
        · intro item1 t hwk
          cases rest with
          | nil => simp [Worker.next] at hwk
          | cons e1 rest1 =>
            simp only [Worker.next, Worker.busy.injEq] at hwk
            obtain ⟨rfl, rfl⟩ := hwk
            exact Or.inr hrest
        · intro k hk
          rw [hout] at hk
          simp at hk
        · intro w1 k hw1 hk
          refine ⟨(hproc k).2 ⟨h.held w1 k hk, ?_⟩, by rw [hout]; simp⟩
          rintro rfl
          exact hw1 (h.excl w1 w k hk hw)
      | queueGet => simp [Event.isDone] at hdone
      | queueAdd item => simp [Event.isDone] at hdone
      | queueAddRateLimited item => simp [Event.isDone] at hdone
      | queueForget item => simp [Event.isDone] at hdone
      | queueShutDown => simp [Event.isDone] at hdone
      | listerGet ns name => simp [Event.isDone] at hdone
      | handleVirtualService ing => simp [Event.isDone] at hdone
      | client call => simp [Event.isDone] at hdone
      | handleError err => simp [Event.isDone] at hdone
      | klogInfo text arg => simp [Event.isDone] at hdone
      | klogError text err => simp [Event.isDone] at hdone
      | waitForCacheSync syncs => simp [Event.isDone] at hdone
      | startWorker i => simp [Event.isDone] at hdone
      | recvStop => simp [Event.isDone] at hdone

/-- Every reachable state of the pool satisfies the invariant. -/
theorem Inv_reachable (n : Nat) (s : System) (h : Reachable n s) : Inv s := by
  induction h with
  | refl => exact Inv_init
  | tail _ hstep ih => exact Inv_step n _ _ ih hstep

/-! ## Single flight -/

/-- No call makes a dirty key clean. -/
theorem call_dirty (q : Queue) (e : Event) (j : Value) (h : j ∈ q.dirty) :
    j ∈ (q.call e).dirty := by
  cases e with
  | queueDone item =>
    simp only [Queue.call]
    rw [Done_dirty]
    exact h
  | queueAdd item => exact (Add_facts q item).2.2.1 j h
  | queueAddRateLimited item =>
    simp only [Queue.call, Queue.AddRateLimited]
    split <;> exact h
  | queueForget item => exact h
  | queueShutDown => exact h
  | queueGet => exact h
  | listerGet ns name => exact h
  | handleVirtualService ing => exact h
  | client call => exact h
  | handleError err => exact h
  | klogInfo text arg => exact h
  | klogError text err => exact h
  | waitForCacheSync syncs => exact h
  | startWorker i => exact h
  | recvStop => exact h

/-- While a key is in flight at a worker, a step keeps it dirty. -/
theorem flight_step_dirty (n w : Nat) (k : Value) (s s1 : System) (h : Inv s)
    (hs : FlightStep n w k s s1) (hd : k ∈ s.q.dirty) : k ∈ s1.q.dirty := by
  obtain ⟨hstep, hin, _⟩ := hs
  cases hstep with
  | notify cd gw cls dw note => exact (notify_facts cd gw cls dw note s.q h.queue).2.2 k hd
  | timer item hw => exact (fire_facts s.q item h.queue).2.2 k hd
  | shutdown => exact hd
  | get w2 env item q1 hn hidle hget =>
    obtain ⟨_, _, hnp, _, hdirty, _⟩ := Get_facts s.q q1 item h.queue hget
    refine (hdirty k).2 ⟨hd, ?_⟩
    rintro rfl
    exact hnp (h.held w k hin)
  | call w2 item e rest hbusy hne => exact call_dirty s.q e k hd

/-- Along steps during which a key stays in flight at a worker, the invariant
holds and a dirty key stays dirty. -/
theorem flight_path (n w : Nat) (k : Value) (s s3 : System) (h : Inv s)
    (hin : (s.workers w).inFlight = some k) (hd : k ∈ s.q.dirty)
    (hp : Relation.ReflTransGen (FlightStep n w k) s s3) :
    Inv s3 ∧ (s3.workers w).inFlight = some k ∧ k ∈ s3.q.dirty := by
  induction hp with
  | refl => exact ⟨h, hin, hd⟩
  | tail _ hstep ih =>
    obtain ⟨hi, _, hdi⟩ := ih
    exact ⟨Inv_step n _ _ hi hstep.1, hstep.2.2, flight_step_dirty n w k _ _ hi hstep hdi⟩

/-- The step that ends the flight of a dirty key is the worker's `Done`; after it
the key is pending exactly once and no longer in flight. -/
theorem flight_end (n w : Nat) (k : Value) (s3 s4 : System) (h : Inv s3)
    (hin : (s3.workers w).inFlight = some k) (hd : k ∈ s3.q.dirty)
    (hstep : Step n s3 s4) (hout : (s4.workers w).inFlight ≠ some k) :
    s4.q = s3.q.Done k ∧ s4.q.queue.count k = 1 ∧ k ∉ s4.q.processing := by
  cases hstep with
  | notify cd gw cls dw note => exact absurd hin hout
  | timer item hw => exact absurd hin hout
  | shutdown => exact absurd hin hout
  | get w2 env item q1 hn hidle hget =>
    by_cases hw : w = w2
    · subst hw
      rw [hidle] at hin
      simp [Worker.inFlight] at hin
    · simp only [Function.update_noteq hw] at hout
      exact absurd hin hout
  | call w2 item e rest hbusy hne =>
    by_cases hw : w = w2
    · subst hw
      simp only [Function.update_same] at hout
      have htd := h.todo w item (e :: rest) hbusy
      rw [hbusy] at hin
      have hk := (inFlight_busy _ _ _ hin).1
      subst hk
      cases hdone : e.isDone with
      | false =>
        rw [inFlight_next, ← inFlight_cons _ _ _ hdone] at hout
        exact absurd hin hout
      | true =>
        cases e with
        | queueDone j =>
          obtain ⟨rfl, _, _, _⟩ := TodoOK_done k j rest htd
          have hheld : j ∈ s3.q.processing := h.held w j (by rw [hbusy]; exact hin)
          obtain ⟨_, hproc, _, hcount⟩ := Done_facts s3.q j h.queue hheld
          exact ⟨rfl, hcount hd, fun hc => ((hproc j).1 hc).2 rfl⟩
        | queueGet => simp [Event.isDone] at hdone
        | queueAdd item => simp [Event.isDone] at hdone
        | queueAddRateLimited item => simp [Event.isDone] at hdone
        | queueForget item => simp [Event.isDone] at hdone
        | queueShutDown => simp [Event.isDone] at hdone
        | listerGet ns name => simp [Event.isDone] at hdone
        | handleVirtualService ing => simp [Event.isDone] at hdone
        | client call => simp [Event.isDone] at hdone
        | handleError err => simp [Event.isDone] at hdone
        | klogInfo text arg => simp [Event.isDone] at hdone
        | klogError text err => simp [Event.isDone] at hdone
        | waitForCacheSync syncs => simp [Event.isDone] at hdone
        | startWorker i => simp [Event.isDone] at hdone
        | recvStop => simp [Event.isDone] at hdone
    · simp only [Function.update_noteq hw] at hout
      exact absurd hin hout

/-- C9. Single flight, for a pool of any number `n` of workers sharing the queue,
in every state the pool can reach: no key is in flight at two workers; a key in
flight is not pending, so `Get` never hands it to a second worker; every key is
pending at most once, and the key `Get` hands out is afterwards neither pending nor
dirty. When a key in flight at worker `w` is added `K ≥ 1` times to the open queue
and the pool then takes any steps during which the key stays in flight at `w`, the
step that ends the flight is the `Done` of `w`, and after it the key is pending
exactly once and no longer in flight: one subsequent sync, never `K`. -/
theorem single_flight (n : Nat) (s : System) (hr : Reachable n s) :
    (∀ w1 w2 k, (s.workers w1).inFlight = some k →
        (s.workers w2).inFlight = some k → w1 = w2)
    ∧ (∀ w k, (s.workers w).inFlight = some k →
        k ∉ s.q.queue ∧ ∀ item q1, s.q.Get = some (item, false, q1) → item ≠ k)
    ∧ s.q.queue.Nodup
    ∧ (∀ item q1, s.q.Get = some (item, false, q1) →
        item ∉ q1.queue ∧ item ∉ q1.dirty)
    ∧ (∀ w k K s3 s4, (s.workers w).inFlight = some k → s.q.shuttingDown = false →
        1 ≤ K →
        Relation.ReflTransGen (FlightStep n w k)
          ⟨(fun x => Queue.Add x k)^[K] s.q, s.workers⟩ s3 →
        Step n s3 s4 → (s4.workers w).inFlight ≠ some k →
        s4.q = s3.q.Done k ∧ s4.q.queue.count k = 1 ∧ k ∉ s4.q.processing) := by
  have h := Inv_reachable n s hr
  refine ⟨h.excl, ?_, h.queue.nodup, ?_, ?_⟩
  · intro w k hin
    have hnq : k ∉ s.q.queue := fun hq => (h.queue.pending k hq).2 (h.held w k hin)
    refine ⟨hnq, ?_⟩
    intro item q1 hget
    rintro rfl
    exact hnq (Get_facts s.q q1 item h.queue hget).2.1
  · intro item q1 hget
    obtain ⟨_, _, _, _, hdirty, hnq⟩ := Get_facts s.q q1 item h.queue hget
    exact ⟨hnq, fun hc => ((hdirty item).1 hc).2 rfl⟩
  · intro w k K s3 s4 hin hopen hK hpath hstep hout
    obtain ⟨hq, hp, _, _, hd⟩ := iterate_Add_facts k K s.q h.queue
    have h2 : Inv ⟨(fun x => Queue.Add x k)^[K] s.q, s.workers⟩ := Inv_queue s _ h hq hp
    obtain ⟨h3, hin3, hd3⟩ := flight_path n w k _ s3 h2 hin (hd hK hopen) hpath
    exact flight_end n w k s3 s4 h3 hin3 hd3 hstep hout

/-- The sample run of two workers is a run of the pool. -/
theorem sampleBeforeDone_reachable : Reachable 2 sampleBeforeDone := by
  have h1 : Reachable 2
      (System.init.notifyStep (.added (.ingress ⟨⟨"default", "web"⟩⟩))) :=
    Relation.ReflTransGen.single (Step.notify System.init "cluster.local" "mesh-gw"
      "istio" 100 (.added (.ingress ⟨⟨"default", "web"⟩⟩)))
  have h2 : Reachable 2 sampleInFlight :=
    Relation.ReflTransGen.tail h1 (Step.get _ 0 envAbsent (.str "default/web")
      ⟨[], [], [.str "default/web"], [], [], false⟩ (by decide) rfl rfl)
  have h3 : Reachable 2 (sampleInFlight.callStep 0) :=
    Relation.ReflTransGen.tail h2 (Step.call _ 0 (.str "default/web")
      (.listerGet "default" "web") _ rfl (by decide))
  have h4 : Reachable 2 ((sampleInFlight.callStep 0).callStep 0) :=
    Relation.ReflTransGen.tail h3 (Step.call _ 0 (.str "default/web")
      (.handleError (.noLongerExists "default/web")) _ rfl (by decide))
  have h5 : Reachable 2 (((sampleInFlight.callStep 0).callStep 0).callStep 0) :=
    Relation.ReflTransGen.tail h4 (Step.call _ 0 (.str "default/web")
      (.queueForget (.str "default/web")) _ rfl (by decide))
  exact Relation.ReflTransGen.tail h5 (Step.call _ 0 (.str "default/web")
    (.klogInfo "successfully synched %q" (some "default/web")) _ rfl (by decide))

/-- Witness of C9: the key `default/web` is in flight at worker 0 of two; it is not
in flight at worker 1; the Ingress is updated three times meanwhile; after the
`Done` of worker 0 the key is pending exactly once. -/
theorem single_flight_witness :
    (sampleBeforeDone.workers 0).inFlight = some (.str "default/web")
    ∧ (sampleBeforeDone.workers 1).inFlight ≠ some (.str "default/web")
    ∧ (sampleReAdded.callStep 0).q.queue.count (.str "default/web") = 1 :=
  ⟨rfl,
    fun h1 => absurd
      ((single_flight 2 sampleBeforeDone sampleBeforeDone_reachable).1 0 1
        (.str "default/web") rfl h1) (by decide),
    ((single_flight 2 sampleBeforeDone sampleBeforeDone_reachable).2.2.2.2 0
      (.str "default/web") 3 sampleReAdded (sampleReAdded.callStep 0) rfl rfl
      (by decide) Relation.ReflTransGen.refl
      (Step.call sampleReAdded 0 (.str "default/web") (.queueDone (.str "default/web"))
        [] rfl (by decide))
      (by decide)).2.1⟩

end IngressIstio
